import Mathlib

/-!
Shallow embedding of the `sol` web framework's router core (router.go) and
request context dispatch engine (binding.go's `Context.Next`/`Abort`),
together with proofs of the specification's claims about them.

Strings are modelled as lists of characters (`Str`), matching Go's
rune-oriented string functions used by the router.
-/

set_option maxHeartbeats 1000000
set_option maxRecDepth 8000

/-- Paths, segments and method tokens are modelled as lists of characters. -/
abbrev Str := List Char

/-- Character class used by Go's strings.TrimSpace (unicode.IsSpace): the
Latin-1 white space runes plus the Unicode White_Space code points. -/
def isGoSpace (c : Char) : Bool :=
  c.val = 9 || c.val = 10 || c.val = 11 || c.val = 12 || c.val = 13 || c.val = 32 ||
  c.val = 133 || c.val = 160 || c.val = 0x1680 ||
  (0x2000 ≤ c.val && c.val ≤ 0x200A) || c.val = 0x2028 || c.val = 0x2029 ||
  c.val = 0x202F || c.val = 0x205F || c.val = 0x3000

/-- Go strings.TrimSpace: drop white space from both ends. -/
def trimSpace (s : Str) : Str :=
  ((s.dropWhile isGoSpace).reverse.dropWhile isGoSpace).reverse

/-- Go strings.Contains(s, "//"): does s contain two adjacent separators? -/
def hasDouble : Str → Bool
  | [] => false
  | [_] => false
  | c1 :: c2 :: rest => (c1 = '/' && c2 = '/') || hasDouble (c2 :: rest)

/-- Go strings.ReplaceAll(s, "//", "/"): replace each non-overlapping
occurrence of two separators by one, scanning left to right. -/
def replaceSS : Str → Str
  | [] => []
  | [c] => [c]
  | c1 :: c2 :: rest =>
    if c1 = '/' ∧ c2 = '/' then '/' :: replaceSS rest
    else c1 :: replaceSS (c2 :: rest)

/-- The router's collapse loop `for strings.Contains(path, "//") { path =
strings.ReplaceAll(path, "//", "/") }`, run with explicit fuel; fuel equal to
the string length is proven sufficient to reach the loop's fixpoint. -/
def collapse : Nat → Str → Str
  | 0, s => s
  | f + 1, s => if hasDouble s then collapse f (replaceSS s) else s

/-- Go strings.HasPrefix(s, "/"). -/
def hasPrefixSlash (s : Str) : Bool :=
  match s with
  | c :: _ => c = '/'
  | [] => false

/-- Go strings.TrimSuffix(s, "/"): remove one trailing separator if present. -/
def trimSuffixSlash : Str → Str
  | [] => []
  | [c] => if c = '/' then [] else [c]
  | c :: c2 :: rest => c :: trimSuffixSlash (c2 :: rest)

/-- Whether the last character of s satisfies p (false for empty s). -/
def lastIs (p : Char → Bool) : Str → Bool
  | [] => false
  | [c] => p c
  | _ :: c2 :: rest => lastIs p (c2 :: rest)

/-- Whether the first character of s satisfies p (false for empty s). -/
def headIs (p : Char → Bool) : Str → Bool
  | [] => false
  | c :: _ => p c

/-- The stages of normalizePath after TrimSpace: the separator-collapse loop,
then ensure a leading "/", then (unless the path is exactly "/") strip one
trailing "/". -/
def normTail (t : Str) : Str :=
  let u := collapse t.length t
  let v := if hasPrefixSlash u then u else '/' :: u
  if v = ['/'] then v else trimSuffixSlash v

/-- normalizePath from router.go: the empty path maps to "/"; otherwise
TrimSpace, then the collapse / leading-slash / trailing-slash stages. -/
def normalizePath (s : Str) : Str :=
  if s = [] then ['/'] else normTail (trimSpace s)

example : normalizePath "".toList = "/".toList := by decide
example : normalizePath "home".toList = "/home".toList := by decide
example : normalizePath "/home/".toList = "/home".toList := by decide
example : normalizePath "  /home/about/  ".toList = "/home/about".toList := by decide
example : normalizePath "/home//about///contact".toList = "/home/about/contact".toList := by decide
example : normalizePath "/////////////////".toList = "/".toList := by decide
example : normalizePath "/a /".toList = "/a ".toList := by decide
example : normalizePath "/a ".toList = "/a".toList := by decide

lemma replaceSS_length_le (s : Str) : (replaceSS s).length ≤ s.length := by
  induction s using replaceSS.induct with
  | case1 => simp [replaceSS]
  | case2 c => simp [replaceSS]
  | case3 c1 c2 rest h ih =>
      simp only [replaceSS, if_pos h, List.length_cons]
      omega
  | case4 c1 c2 rest h ih =>
      simp only [replaceSS, if_neg h, List.length_cons]
      simpa using ih

lemma replaceSS_length_lt (s : Str) (h : hasDouble s = true) :
    (replaceSS s).length < s.length := by
  induction s using replaceSS.induct with
  | case1 => simp [hasDouble] at h
  | case2 c => simp [hasDouble] at h
  | case3 c1 c2 rest hd ih =>
      simp only [replaceSS, if_pos hd, List.length_cons]
      have := replaceSS_length_le rest
      omega
  | case4 c1 c2 rest hd ih =>
      simp only [hasDouble, Bool.or_eq_true, Bool.and_eq_true, decide_eq_true_eq] at h
      rcases h with h | h
      · exact absurd h hd
      · simp only [replaceSS, if_neg hd, List.length_cons]
        have := ih h
        simp only [List.length_cons] at this
        omega

lemma collapse_hasDouble (f : Nat) : ∀ s : Str, s.length ≤ f →
    hasDouble (collapse f s) = false := by
  induction f with
  | zero =>
      intro s hs
      have : s = [] := List.length_eq_zero.mp (Nat.le_zero.mp hs)
      subst this
      simp [collapse, hasDouble]
  | succ f ih =>
      intro s hs
      by_cases hd : hasDouble s = true
      · have hlt := replaceSS_length_lt s hd
        simp only [collapse, if_pos hd]
        exact ih _ (by omega)
      · simp only [collapse, if_neg hd]
        exact Bool.not_eq_true _ ▸ (Bool.eq_false_iff.mpr hd)

lemma collapse_eq_self (f : Nat) (s : Str) (h : hasDouble s = false) :
    collapse f s = s := by
  cases f with
  | zero => rfl
  | succ f => simp [collapse, h]

lemma hasDouble_cons_slash (u : Str) (hu : hasDouble u = false)
    (hp : hasPrefixSlash u = false) : hasDouble ('/' :: u) = false := by
  cases u with
  | nil => simp [hasDouble]
  | cons c rest =>
      have hc : (c = '/') = False := by
        simp only [hasPrefixSlash] at hp
        by_contra hcontra
        simp only [eq_iff_iff, iff_false] at hcontra
        push_neg at hcontra
        subst hcontra
        simp at hp
      simp [hasDouble, hc, hu]

lemma trimSuffixSlash_cons_shape (c : Char) (rest : Str) :
    trimSuffixSlash (c :: rest) = [] ∨
    ∃ tl, trimSuffixSlash (c :: rest) = c :: tl := by
  cases rest with
  | nil =>
      by_cases hc : c = '/'
      · left; simp [trimSuffixSlash, hc]
      · right; exact ⟨[], by simp [trimSuffixSlash, hc]⟩
  | cons c2 tl2 => right; exact ⟨trimSuffixSlash (c2 :: tl2), rfl⟩

lemma hasDouble_trimSuffixSlash (s : Str) (h : hasDouble s = false) :
    hasDouble (trimSuffixSlash s) = false := by
  induction s using trimSuffixSlash.induct with
  | case1 => simpa [trimSuffixSlash] using h
  | case2 => simp [trimSuffixSlash, hasDouble]
  | case3 c hc => simp [trimSuffixSlash, hc, hasDouble]
  | case4 c c2 rest ih =>
      simp only [hasDouble, Bool.or_eq_false_iff] at h
      have h2 := ih h.2
      rcases trimSuffixSlash_cons_shape c2 rest with hnil | ⟨tl, htl⟩
      · simp only [trimSuffixSlash, hnil, hasDouble]
      · rw [htl] at h2
        simp only [trimSuffixSlash, htl, hasDouble, Bool.or_eq_false_iff]
        exact ⟨h.1, h2⟩

lemma trimSuffixSlash_eq_nil (c : Char) (rest : Str)
    (h : trimSuffixSlash (c :: rest) = []) : c = '/' ∧ rest = [] := by
  cases rest with
  | nil =>
      by_cases hc : c = '/'
      · exact ⟨hc, rfl⟩
      · simp [trimSuffixSlash, hc] at h
  | cons c2 tl => simp [trimSuffixSlash] at h

lemma lastIs_slash_trimSuffixSlash (s : Str) (h : hasDouble s = false) :
    lastIs (fun x => x = '/') (trimSuffixSlash s) = false := by
  induction s using trimSuffixSlash.induct with
  | case1 => simp [trimSuffixSlash, lastIs]
  | case2 => simp [trimSuffixSlash, lastIs]
  | case3 c hc => simp [trimSuffixSlash, hc, lastIs]
  | case4 c c2 rest ih =>
      simp only [hasDouble, Bool.or_eq_false_iff] at h
      have h2 := ih h.2
      show lastIs _ (c :: trimSuffixSlash (c2 :: rest)) = false
      cases htl : trimSuffixSlash (c2 :: rest) with
      | nil =>
          obtain ⟨hc2, hrest⟩ := trimSuffixSlash_eq_nil c2 rest htl
          subst hc2; subst hrest
          have hc : ¬ c = '/' := by simpa using h.1
          simp [lastIs, hc]
      | cons d tl =>
          rw [htl] at h2
          simpa [lastIs] using h2

lemma trimSuffixSlash_eq_self (s : Str)
    (h : lastIs (fun x => x = '/') s = false) : trimSuffixSlash s = s := by
  induction s using trimSuffixSlash.induct with
  | case1 => rfl
  | case2 => simp [lastIs] at h
  | case3 c hc => simp [trimSuffixSlash, hc]
  | case4 c c2 rest ih =>
      show c :: trimSuffixSlash (c2 :: rest) = c :: c2 :: rest
      have h2 : lastIs (fun x => x = '/') (c2 :: rest) = false := by
        simpa [lastIs] using h
      rw [ih h2]

lemma headIs_append (p : Char → Bool) (xs ys : Str) (h : xs ≠ []) :
    headIs p (xs ++ ys) = headIs p xs := by
  cases xs with
  | nil => exact absurd rfl h
  | cons c tl => rfl

lemma lastIs_eq_headIs_reverse (p : Char → Bool) (s : Str) :
    lastIs p s = headIs p s.reverse := by
  induction s using lastIs.induct (p := p) with
  | case1 => rfl
  | case2 c => simp [lastIs, headIs]
  | case3 c c2 rest ih =>
      show lastIs p (c2 :: rest) = _
      rw [ih]
      have : (c :: c2 :: rest).reverse = (c2 :: rest).reverse ++ [c] := by simp
      rw [this, headIs_append p _ _ (by simp)]

lemma dropWhile_eq_self_of_headIs (p : Char → Bool) (s : Str)
    (h : headIs p s = false) : s.dropWhile p = s := by
  cases s with
  | nil => rfl
  | cons c tl =>
      have : p c = false := h
      simp [List.dropWhile_cons, this]

lemma trimSpace_eq_self (s : Str) (h1 : headIs isGoSpace s = false)
    (h2 : lastIs isGoSpace s = false) : trimSpace s = s := by
  unfold trimSpace
  rw [dropWhile_eq_self_of_headIs _ _ h1,
    dropWhile_eq_self_of_headIs _ _ (by rw [← lastIs_eq_headIs_reverse]; exact h2)]
  exact List.reverse_reverse s

lemma prefixSlash_shape (u : Str) (h : hasPrefixSlash u = true) :
    ∃ w, u = '/' :: w := by
  cases u with
  | nil => simp [hasPrefixSlash] at h
  | cons c tl =>
      have : c = '/' := by simpa [hasPrefixSlash] using h
      exact ⟨tl, by rw [this]⟩

lemma trimSuffix_stage (c : Char) (tl : Str)
    (hd : hasDouble ('/' :: c :: tl) = false) :
    trimSuffixSlash ('/' :: c :: tl) ≠ [] ∧
    hasPrefixSlash (trimSuffixSlash ('/' :: c :: tl)) = true ∧
    hasDouble (trimSuffixSlash ('/' :: c :: tl)) = false ∧
    lastIs (fun x => x = '/') (trimSuffixSlash ('/' :: c :: tl)) = false := by
  refine ⟨?_, ?_, hasDouble_trimSuffixSlash _ hd, lastIs_slash_trimSuffixSlash _ hd⟩
  · show ('/' :: trimSuffixSlash (c :: tl)) ≠ []
    simp
  · show hasPrefixSlash ('/' :: trimSuffixSlash (c :: tl)) = true
    simp [hasPrefixSlash]

lemma normTail_props (t : Str) :
    normTail t ≠ [] ∧ hasPrefixSlash (normTail t) = true ∧
    hasDouble (normTail t) = false ∧
    (normTail t = ['/'] ∨ lastIs (fun x => x = '/') (normTail t) = false) := by
  have hud : hasDouble (collapse t.length t) = false :=
    collapse_hasDouble t.length t le_rfl
  unfold normTail
  generalize hu : collapse t.length t = u at hud ⊢
  dsimp only
  by_cases hp : hasPrefixSlash u = true
  · rw [if_pos hp]
    by_cases hv : u = ['/']
    · rw [if_pos hv, hv]
      exact ⟨by simp, by simp [hasPrefixSlash], by simp [hasDouble], Or.inl rfl⟩
    · rw [if_neg hv]
      obtain ⟨w, rfl⟩ := prefixSlash_shape u hp
      cases w with
      | nil => exact absurd rfl hv
      | cons c tl =>
          obtain ⟨a, b, cc, d⟩ := trimSuffix_stage c tl hud
          exact ⟨a, b, cc, Or.inr d⟩
  · rw [if_neg hp]
    have hp' : hasPrefixSlash u = false := by
      exact Bool.not_eq_true _ ▸ (Bool.eq_false_iff.mpr hp)
    have hvd : hasDouble ('/' :: u) = false := hasDouble_cons_slash u hud hp'
    by_cases hv : ('/' :: u) = ['/']
    · rw [if_pos hv, hv]
      exact ⟨by simp, by simp [hasPrefixSlash], by simp [hasDouble], Or.inl rfl⟩
    · rw [if_neg hv]
      cases u with
      | nil => exact absurd rfl hv
      | cons c tl =>
          obtain ⟨a, b, cc, d⟩ := trimSuffix_stage c tl hvd
          exact ⟨a, b, cc, Or.inr d⟩

lemma normalizePath_props (s : Str) :
    normalizePath s ≠ [] ∧ hasPrefixSlash (normalizePath s) = true ∧
    hasDouble (normalizePath s) = false ∧
    (normalizePath s = ['/'] ∨
      lastIs (fun x => x = '/') (normalizePath s) = false) := by
  unfold normalizePath
  by_cases hs : s = []
  · rw [if_pos hs]
    exact ⟨by simp, by simp [hasPrefixSlash], by simp [hasDouble], Or.inl rfl⟩
  · rw [if_neg hs]
    exact normTail_props (trimSpace s)

lemma normTail_eq_self (r : Str) (hpre : hasPrefixSlash r = true)
    (hd : hasDouble r = false)
    (hlast : r = ['/'] ∨ lastIs (fun x => x = '/') r = false) :
    normTail r = r := by
  unfold normTail
  rw [collapse_eq_self _ _ hd]
  dsimp only
  rw [if_pos hpre]
  by_cases hr : r = ['/']
  · rw [if_pos hr]
  · rw [if_neg hr]
    rcases hlast with h | h
    · exact absurd h hr
    · exact trimSuffixSlash_eq_self r h

lemma headIs_space_of_prefixSlash (r : Str) (h : hasPrefixSlash r = true) :
    headIs isGoSpace r = false := by
  obtain ⟨w, rfl⟩ := prefixSlash_shape r h
  show isGoSpace '/' = false
  decide

lemma normalizePath_idem_of_lastNotSpace (s : Str)
    (h : lastIs isGoSpace (normalizePath s) = false) :
    normalizePath (normalizePath s) = normalizePath s := by
  obtain ⟨hne, hpre, hd, hlast⟩ := normalizePath_props s
  conv_lhs => rw [normalizePath]
  rw [if_neg hne,
    trimSpace_eq_self _ (headIs_space_of_prefixSlash _ hpre) h]
  exact normTail_eq_self _ hpre hd hlast

/-- C3, counterexample: normalizePath is not idempotent. For the input
"/a /" (slash, letter, space, slash) the first pass trims the trailing slash
and leaves "/a " with a trailing space, and the second pass then trims that
space, giving "/a" — so applying normalizePath twice differs from applying it
once. -/
theorem c3_counterexample :
    normalizePath ("/a /".toList) = "/a ".toList ∧
    normalizePath (normalizePath ("/a /".toList)) ≠ normalizePath ("/a /".toList) := by
  decide

/-- C3, amended: for every input string p, normalizePath p is non-empty,
starts with '/', contains no substring "//", and has no trailing '/' unless
the result is exactly "/". Idempotence, however, only holds when the
normalized result does not end in a white space character (TrimSpace runs
before the trailing-slash trim, so a result like "/a " gains nothing on the
first pass but loses its trailing space on a second pass). -/
theorem c3_normalizePath_shape_and_conditional_idem :
    (∀ p : Str,
      normalizePath p ≠ [] ∧
      hasPrefixSlash (normalizePath p) = true ∧
      hasDouble (normalizePath p) = false ∧
      (normalizePath p = ['/'] ∨
        lastIs (fun x => x = '/') (normalizePath p) = false)) ∧
    (∀ p : Str, lastIs isGoSpace (normalizePath p) = false →
      normalizePath (normalizePath p) = normalizePath p) :=
  ⟨normalizePath_props, normalizePath_idem_of_lastNotSpace⟩

/-- C3 witness: the amended theorem applied at the concrete input "/home/",
whose normalized form "/home" does not end in white space. -/
theorem c3_witness :
    lastIs isGoSpace (normalizePath "/home/".toList) = false ∧
    normalizePath (normalizePath "/home/".toList) = normalizePath "/home/".toList :=
  ⟨by decide,
    c3_normalizePath_shape_and_conditional_idem.2 ("/home/".toList) (by decide)⟩

/-- Go strings.TrimPrefix(s, "/"): remove one leading separator if present. -/
def trimPrefixSlash (s : Str) : Str :=
  match s with
  | '/' :: rest => rest
  | s => s

/-- Go strings.Split(s, "/"): split on the separator, keeping empty pieces
(the result is never the empty list). -/
def splitSlash : Str → List Str
  | [] => [[]]
  | '/' :: rest => [] :: splitSlash rest
  | c :: rest =>
    match splitSlash rest with
    | seg :: segs => (c :: seg) :: segs
    | [] => [[c]]

example : splitSlash "users/123".toList = ["users".toList, "123".toList] := by decide
example : splitSlash "a".toList = ["a".toList] := by decide

/-- Association-list lookup, modelling a read of a Go map[string]V (a read of
a nil map and of an empty map both miss). -/
def lookupA {α : Type} (k : Str) : List (Str × α) → Option α
  | [] => none
  | (k2, v) :: rest => if k = k2 then some v else lookupA k rest

/-- Association-list write, modelling a Go map[string]V assignment. -/
def updateA {α : Type} (k : Str) (v : α) : List (Str × α) → List (Str × α)
  | [] => [(k, v)]
  | (k2, v2) :: rest => if k = k2 then (k, v) :: rest else (k2, v2) :: updateA k v rest

/-- A radix-tree node from router.go, parameterized over the handler type H
(handlers are opaque to the router). children is the static-child map,
paramChild the at-most-one dynamic child, handlers the stored chain, isEnd
whether a route terminates here, and paramName the declared parameter name of
a dynamic node. -/
inductive Node (H : Type) : Type where
  | mk (children : List (Str × Node H)) (paramChild : Option (Node H))
       (handlers : List H) (isEnd : Bool) (paramName : Str)

def Node.children {H : Type} : Node H → List (Str × Node H)
  | .mk ch _ _ _ _ => ch

def Node.paramChild {H : Type} : Node H → Option (Node H)
  | .mk _ pc _ _ _ => pc

def Node.handlers {H : Type} : Node H → List H
  | .mk _ _ hs _ _ => hs

def Node.isEnd {H : Type} : Node H → Bool
  | .mk _ _ _ en _ => en

def Node.paramName {H : Type} : Node H → Str
  | .mk _ _ _ _ pn => pn

/-- The node the Go code writes with `cur.isEnd = true; cur.handlers = combined`. -/
def Node.withChain {H : Type} : Node H → List H → Node H
  | .mk ch pc _ _ pn, chain => .mk ch pc chain true pn

/-- The panic message of routerImpl.insert on a parameter-name conflict. -/
def conflictMsg (path pname existing : Str) : Str :=
  "cannot register '".toList ++ path ++
  "': parameter name ':".toList ++ pname ++
  "' conflicts with existing ':".toList ++ existing ++
  "' in previously registered path".toList

/-- The segment loop of routerImpl.insert, threading the imperative pointer
walk functionally: a segment starting with ':' descends into (or creates) the
single paramChild, detecting a parameter-name conflict exactly as the Go code
does (its panic is modelled as Except.error carrying the panic message);
any other segment descends into (or creates) the static child for that
literal. After all segments the final node is marked terminal and receives
the chain. Segments are never empty here since the path was normalized. -/
def insertSegs {H : Type} (path : Str) : List Str → List H → Node H → Except Str (Node H)
  | [], chain, n => .ok (n.withChain chain)
  | seg :: rest, chain, .mk ch pc hs en pn =>
    match seg with
    | ':' :: pname =>
      match pc with
      | some child =>
          if child.paramName = pname then
            match insertSegs path rest chain child with
            | .ok child2 => .ok (.mk ch (some child2) hs en pn)
            | .error e => .error e
          else .error (conflictMsg path pname child.paramName)
      | none =>
          match insertSegs path rest chain (Node.mk [] none [] false pname) with
          | .ok child2 => .ok (.mk ch (some child2) hs en pn)
          | .error e => .error e
    | _ =>
      match insertSegs path rest chain ((lookupA seg ch).getD (Node.mk [] none [] false [])) with
      | .ok child2 => .ok (.mk (updateA seg child2 ch) pc hs en pn)
      | .error e => .error e

/-- The segment loop of routerImpl.search: an exact static-child match is
taken first; otherwise the paramChild is taken and the segment is recorded
under its parameter name; otherwise the search fails. At the end the node
must be terminal. -/
def searchSegs {H : Type} : List Str → List (Str × Str) → Node H →
    Option (List H × List (Str × Str))
  | [], ps, n => if n.isEnd then some (n.handlers, ps) else none
  | seg :: rest, ps, n =>
    match lookupA seg n.children with
    | some child => searchSegs rest ps child
    | none =>
      match n.paramChild with
      | some pc => searchSegs rest (updateA pc.paramName seg ps) pc
      | none => none

/-- routerImpl: the per-method trees, the accumulated global middleware, and
the not-found handler. The sync.Pool is not part of the registration state. -/
structure RouterImpl (H : Type) : Type where
  trees : List (Str × Node H)
  middlewares : List H
  notFound : H

/-- routerImpl.insert: normalize the path, fetch or lazily create the
method's root (getTree), then either mark the root terminal for "/" or run
the segment loop on the path split at separators. -/
def RouterImpl.insert {H : Type} (r : RouterImpl H) (method path : Str)
    (combined : List H) : Except Str (RouterImpl H) :=
  let p := normalizePath path
  let root := (lookupA method r.trees).getD (Node.mk [] none [] false [])
  if p = ['/'] then
    .ok { r with trees := updateA method (root.withChain combined) r.trees }
  else
    match insertSegs p (splitSlash p.tail) combined root with
    | .ok root2 => .ok { r with trees := updateA method root2 r.trees }
    | .error e => .error e

/-- routerImpl.search: normalize the path; a missing method tree is a miss;
"/" succeeds only if the root is terminal; otherwise run the segment loop. -/
def RouterImpl.search {H : Type} (r : RouterImpl H) (method path : Str) :
    Option (List H × List (Str × Str)) :=
  let p := normalizePath path
  match lookupA method r.trees with
  | none => none
  | some root =>
    if p = ['/'] then
      if root.isEnd then some (root.handlers, []) else none
    else searchSegs (splitSlash p.tail) [] root

/-- routerImpl.addRoute: concatenate middleware then handlers and insert. -/
def RouterImpl.addRoute {H : Type} (r : RouterImpl H) (method path : Str)
    (middlewares handlers : List H) : Except Str (RouterImpl H) :=
  r.insert method path (middlewares ++ handlers)

/-- The per-method convenience entries (routerImpl.GET and friends): register
with the router's currently accumulated global middleware. -/
def RouterImpl.handle {H : Type} (r : RouterImpl H) (method path : Str)
    (h : List H) : Except Str (RouterImpl H) :=
  r.addRoute method path r.middlewares h

def RouterImpl.doGET {H : Type} (r : RouterImpl H) (path : Str) (h : List H) :
    Except Str (RouterImpl H) :=
  r.handle "GET".toList path h

def RouterImpl.doPOST {H : Type} (r : RouterImpl H) (path : Str) (h : List H) :
    Except Str (RouterImpl H) :=
  r.handle "POST".toList path h

/-- routerImpl.Use: append to the global middleware list. -/
def RouterImpl.use {H : Type} (r : RouterImpl H) (m : List H) : RouterImpl H :=
  { r with middlewares := r.middlewares ++ m }

/-- A fresh router as newRouter builds it (no trees, no middleware), with the
not-found handler abstract. -/
def emptyRouter {H : Type} (nf : H) : RouterImpl H :=
  { trees := [], middlewares := [], notFound := nf }

/-- A route group: prefix, its own middleware, and the optional parent group.
The Go group's back-pointer to the router is passed explicitly to the
operations that read it. -/
inductive RGroup (H : Type) : Type where
  | mk (pfx : Str) (mids : List H) (parent : Option (RGroup H))

def RGroup.pfx {H : Type} : RGroup H → Str
  | .mk p _ _ => p

/-- The parent-walk of group.collectMiddlewares: this group's middleware,
then each ancestor's, nearest first. -/
def RGroup.climb {H : Type} : RGroup H → List H
  | .mk _ mids none => mids
  | .mk _ mids (some p) => mids ++ RGroup.climb p

/-- group.collectMiddlewares: the parent walk followed by the router's
global middleware. -/
def RGroup.collectMiddlewares {H : Type} (g : RGroup H) (routerMids : List H) :
    List H :=
  g.climb ++ routerMids

/-- routerImpl.Group: a new top-level group with normalized prefix. -/
def RouterImpl.group {H : Type} (_r : RouterImpl H) (pfx0 : Str) (m : List H) :
    RGroup H :=
  RGroup.mk (normalizePath pfx0) m none

/-- group.Group: a nested group; the parent prefix gains a trailing separator
if it lacks one, then the normalized sub-prefix without its leading slash. -/
def RGroup.subGroup {H : Type} (g : RGroup H) (sub : Str) (m : List H) : RGroup H :=
  RGroup.mk
    ((if lastIs (fun x => x = '/') g.pfx then g.pfx else g.pfx ++ ['/']) ++
      trimPrefixSlash (normalizePath sub))
    m (some g)

/-- group.add: compute the full path from the group prefix and the normalized
route path, then register through the router with the collected middleware. -/
def RGroup.add {H : Type} (g : RGroup H) (r : RouterImpl H) (method path : Str)
    (h : List H) : Except Str (RouterImpl H) :=
  let p := normalizePath path
  let fullPath :=
    if p = ['/'] then g.pfx
    else
      (if lastIs (fun x => x = '/') g.pfx then g.pfx else g.pfx ++ ['/']) ++
        trimPrefixSlash p
  r.addRoute method fullPath (g.collectMiddlewares r.middlewares) h

example :
    ((emptyRouter (0 : Nat)).doGET "/home".toList [7]).map
      (fun r => r.search "GET".toList "/home".toList) =
    .ok (some ([7], [])) := by rfl

example :
    ((emptyRouter (0 : Nat)).doGET "/users/:id".toList [7]).map
      (fun r => r.search "GET".toList "/users/123".toList) =
    .ok (some ([7], [("id".toList, "123".toList)])) := by rfl

/-- C4: registering GET /home stores a chain that GET /home returns, that
GET /home/ (normalizing to /home) also returns, and that POST /home does not
see — the method trees are independent. Stated for an arbitrary handler type
and an arbitrary registered chain. -/
theorem c4_method_isolation_and_normalized_lookup (H : Type) (nf : H) (c : List H) :
    ∃ r1 : RouterImpl H,
      (emptyRouter nf).doGET "/home".toList c = .ok r1 ∧
      r1.search "GET".toList "/home".toList = some (c, []) ∧
      r1.search "GET".toList "/home/".toList = some (c, []) ∧
      r1.search "POST".toList "/home".toList = none :=
  ⟨_, rfl, rfl, rfl, rfl⟩

/-- C5: registering GET /users/:id makes GET /users/123 succeed with the
parameter mapping id ↦ "123" captured as the literal segment string, while
GET /users/123/extra (one segment deeper than any route) is not found. -/
theorem c5_param_capture_and_depth_miss (H : Type) (nf : H) (c : List H) :
    ∃ r1 : RouterImpl H,
      (emptyRouter nf).doGET "/users/:id".toList c = .ok r1 ∧
      r1.search "GET".toList "/users/123".toList =
        some (c, [("id".toList, "123".toList)]) ∧
      r1.search "GET".toList "/users/123/extra".toList = none :=
  ⟨_, rfl, rfl, rfl⟩

/-- C2: at every trie node that already has a paramChild, inserting a path
whose dynamic segment at that node declares a different parameter name fails
with the registration-time conflict (the Go panic, modelled as Except.error,
which aborts registration with no recovery), while re-using the same name and
continuing deeper succeeds — concretely, GET /users/:id then GET
/users/:userId fails, and GET /users/:id/posts succeeds. -/
theorem c2_param_name_conflict :
    (∀ (H : Type) (path : Str) (n child : Node H) (pname : Str)
        (rest : List Str) (chain : List H),
        n.paramChild = some child →
        child.paramName ≠ pname →
        insertSegs path ((':' :: pname) :: rest) chain n =
          .error (conflictMsg path pname child.paramName)) ∧
    (∀ (H : Type) (nf : H) (c1 c2 c3 : List H),
      ∃ r1 : RouterImpl H,
        (emptyRouter nf).doGET "/users/:id".toList c1 = .ok r1 ∧
        r1.doGET "/users/:userId".toList c2 =
          .error
            (conflictMsg "/users/:userId".toList "userId".toList "id".toList) ∧
        ∃ r2 : RouterImpl H, r1.doGET "/users/:id/posts".toList c3 = .ok r2) := by
  constructor
  · intro H path n child pname rest chain hpc hne
    cases n with
    | mk ch pc hs en pn =>
        simp only [Node.paramChild] at hpc
        subst hpc
        simp only [insertSegs, if_neg hne]
  · intro H nf c1 c2 c3
    exact ⟨_, rfl, rfl, _, rfl⟩

/-- C2 witness: the conflict equation of the theorem's first part applied at
a concrete node whose paramChild is named "id" while the inserted segment
declares ":userId". -/
theorem c2_witness :
    (Node.mk [] (some (Node.mk [] none ([] : List Nat) false "id".toList))
        [] false []).paramChild =
      some (Node.mk [] none [] false "id".toList) ∧
    "id".toList ≠ "userId".toList ∧
    insertSegs "/p".toList [':' :: "userId".toList] [3]
        (Node.mk [] (some (Node.mk [] none [] false "id".toList)) [] false []) =
      .error (conflictMsg "/p".toList "userId".toList "id".toList) :=
  ⟨rfl, by decide,
    c2_param_name_conflict.1 Nat "/p".toList
      (Node.mk [] (some (Node.mk [] none [] false "id".toList)) [] false [])
      (Node.mk [] none [] false "id".toList) "userId".toList [] [3] rfl
      (by decide)⟩

/-- C6: whenever a node's static-children map has an exact match for the
incoming segment, search descends into it — the paramChild is never consulted
at that position; concretely, with both GET /users/me and GET /users/:id
registered (the dynamic route first), GET /users/me returns the chain of
/users/me with no parameter binding, while GET /users/42 still takes the
dynamic route. -/
theorem c6_static_beats_param :
    (∀ (H : Type) (n : Node H) (seg : Str) (rest : List Str)
        (ps : List (Str × Str)) (child : Node H),
        lookupA seg n.children = some child →
        searchSegs (seg :: rest) ps n = searchSegs rest ps child) ∧
    (∀ (H : Type) (nf : H) (cMe cId : List H),
      ∃ r1 r2 : RouterImpl H,
        (emptyRouter nf).doGET "/users/:id".toList cId = .ok r1 ∧
        r1.doGET "/users/me".toList cMe = .ok r2 ∧
        r2.search "GET".toList "/users/me".toList = some (cMe, []) ∧
        r2.search "GET".toList "/users/42".toList =
          some (cId, [("id".toList, "42".toList)])) := by
  constructor
  · intro H n seg rest ps child h
    cases n with
    | mk ch pc hs en pn =>
        simp only [Node.children] at h
        simp only [searchSegs, Node.children, h]
  · intro H nf cMe cId
    exact ⟨_, _, rfl, rfl, rfl, rfl⟩

/-- C6 witness: the static-precedence equation applied at a concrete node
holding both a static child "me" and a paramChild ":id". -/
theorem c6_witness :
    lookupA "me".toList
        (Node.mk [("me".toList, Node.mk [] none ([5] : List Nat) true [])]
          (some (Node.mk [] none [6] true "id".toList)) [] false []).children =
      some (Node.mk [] none [5] true []) ∧
    searchSegs ["me".toList] []
        (Node.mk [("me".toList, Node.mk [] none ([5] : List Nat) true [])]
          (some (Node.mk [] none [6] true "id".toList)) [] false []) =
      searchSegs [] [] (Node.mk [] none ([5] : List Nat) true []) :=
  ⟨rfl,
    c6_static_beats_param.1 Nat
      (Node.mk [("me".toList, Node.mk [] none [5] true [])]
        (some (Node.mk [] none [6] true "id".toList)) [] false [])
      "me".toList [] [] (Node.mk [] none [5] true []) rfl⟩

/-- C7: a route registered through nested groups stores the concatenation of
the deepest group's middleware (A), then its ancestor's (B), then the
router's global middleware as of registration time (C), then the terminal
handlers — the most specific scope occupies the earliest chain positions.
Stated for arbitrary middleware and handler lists with a two-level group
nesting under prefix /api/v1. -/
theorem c7_group_middleware_order (H : Type) (nf : H) (A B C h : List H) :
    ((((emptyRouter nf).use C).group "/api".toList B).subGroup "/v1".toList A) =
      RGroup.mk "/api/v1".toList A (some (RGroup.mk "/api".toList B none)) ∧
    ∃ ts : RouterImpl H,
      (RGroup.mk "/api/v1".toList A (some (RGroup.mk "/api".toList B none))).add
          ((emptyRouter nf).use C) "GET".toList "/x".toList h = .ok ts ∧
      ts.search "GET".toList "/api/v1/x".toList = some (A ++ B ++ C ++ h, []) :=
  ⟨rfl, _, rfl, rfl⟩

/-- C8: calling Use after a route is registered does not change that route's
stored chain (the global middleware was copied by value at registration
time), while a route registered afterwards does carry the newly added
middleware. Stated for arbitrary initial middleware M, later middleware C and
handler lists. -/
theorem c8_use_is_not_retroactive (H : Type) (nf : H) (M C h1 h2 : List H) :
    ∃ r1 r3 : RouterImpl H,
      ((emptyRouter nf).use M).doGET "/a".toList h1 = .ok r1 ∧
      r1.search "GET".toList "/a".toList = some (M ++ h1, []) ∧
      (r1.use C).trees = r1.trees ∧
      (r1.use C).search "GET".toList "/a".toList = some (M ++ h1, []) ∧
      (r1.use C).doGET "/b".toList h2 = .ok r3 ∧
      r3.search "GET".toList "/a".toList = some (M ++ h1, []) ∧
      r3.search "GET".toList "/b".toList = some (M ++ C ++ h2, []) :=
  ⟨_, _, rfl, rfl, rfl, rfl, rfl, rfl, rfl⟩

/-- Two's-complement wrap into the int8 range, modelling Go's int8 arithmetic
and the int8(len(...)) conversion used by Context.Next. -/
def wrap8 (z : Int) : Int :=
  (z + 128) % 256 - 128

example : wrap8 127 = 127 := by decide
example : wrap8 128 = -128 := by decide
example : wrap8 (-1) = -1 := by decide
example : wrap8 0 = 0 := by decide

/-- One primitive step of a handler body in the dispatch model: log an
observable tag, call c.Next(), call c.Abort(), fault (a Go panic raised by
handler code), or run c.Next() under a deferred recover as the Recover
middleware does. -/
inductive Act : Type where
  | log (tag : Nat) : Act
  | next : Act
  | abort : Act
  | fault : Act
  | recov : Act
deriving DecidableEq

/-- A handler is a finite sequence of primitive steps. -/
abbrev Handler := List Act

/-- The mutable per-request dispatch state of sol.Context: the int8 cursor,
the abort latch, whether the request's context reports cancellation, and the
trace of observable actions performed so far. -/
structure Ctx : Type where
  index : Int
  aborted : Bool
  cancelled : Bool
  trace : List Nat
deriving DecidableEq

/-- Outcome of running dispatch code: normal return with the final state, a
propagating Go panic carrying the state at the fault (pointer mutations
persist across an unwind), or fuel exhaustion of the model. -/
inductive Res : Type where
  | ok (st : Ctx) : Res
  | panicked (st : Ctx) : Res
  | out : Res
deriving DecidableEq

/-- A pending call in the dispatch engine: Context.Next, the cursor loop
inside Next, or the remaining body of the handler currently executing. The
three mutually recursive pieces of the Go code are merged into one
fuel-indexed step function so that execution is structurally recursive. -/
inductive Call : Type where
  | nextC (st : Ctx) : Call
  | loopC (st : Ctx) : Call
  | actsC (acts : List Act) (st : Ctx) : Call
deriving DecidableEq

/-- The dispatch engine, one fuel unit per step.

nextC is Context.Next from binding.go: if already aborted return
immediately, otherwise advance the int8 cursor and enter the loop.

loopC is the `for c.index < int8(len(c.handlers))` loop of Next: at each
iteration stop on the abort latch or on request cancellation, invoke the
handler at the cursor, then advance the cursor. A negative cursor reaching
the slice index is a Go runtime panic (index out of range), as is an
out-of-range read.

actsC executes a handler body: log appends to the trace; abort sets the
latch (the handler's own remaining code still runs); fault raises a panic
abandoning the rest of the body; next runs Context.Next and propagates a
panic; recov runs Context.Next under Recover's deferred recover — a panic is
converted into the 500 response (traced as tag 500) and the body returns
normally. -/
def run (chain : List Handler) : Nat → Call → Res
  | 0, _ => .out
  | f + 1, .nextC st =>
    if st.aborted then .ok st
    else run chain f (.loopC { st with index := wrap8 (st.index + 1) })
  | f + 1, .loopC st =>
    if st.index < wrap8 chain.length then
      if st.aborted then .ok st
      else if st.cancelled then .ok st
      else if st.index < 0 then .panicked st
      else
        match chain[st.index.toNat]? with
        | none => .panicked st
        | some body =>
          match run chain f (.actsC body st) with
          | .ok st2 => run chain f (.loopC { st2 with index := wrap8 (st2.index + 1) })
          | r => r
    else .ok st
  | _ + 1, .actsC [] st => .ok st
  | f + 1, .actsC (.log t :: rest) st =>
    run chain f (.actsC rest { st with trace := st.trace ++ [t] })
  | f + 1, .actsC (.abort :: rest) st =>
    run chain f (.actsC rest { st with aborted := true })
  | _ + 1, .actsC (.fault :: _) st => .panicked st
  | f + 1, .actsC (.next :: rest) st =>
    match run chain f (.nextC st) with
    | .ok st2 => run chain f (.actsC rest st2)
    | r => r
  | f + 1, .actsC (.recov :: rest) st =>
    match run chain f (.nextC st) with
    | .ok st2 => run chain f (.actsC rest st2)
    | .panicked st2 => run chain f (.actsC rest { st2 with trace := st2.trace ++ [500] })
    | .out => .out

/-- Context.Next, entered with the given fuel. -/
def runNext (fuel : Nat) (chain : List Handler) (st : Ctx) : Res :=
  run chain fuel (.nextC st)

/-- The state acquireCtx hands to a request: cursor at -1, not aborted, the
params and data maps cleared (not modelled further), trace empty. -/
def freshCtx (cancelled : Bool) : Ctx :=
  { index := -1, aborted := false, cancelled := cancelled, trace := [] }

example :
    runNext 20 [[.log 1], [.log 2]] (freshCtx false) =
    .ok { index := 2, aborted := false, cancelled := false, trace := [1, 2] } := by
  decide

/-- Outcome of one routerImpl.ServeHTTP call: Next returned normally and
releaseCtx ran (released); a panic propagated out of ServeHTTP before the
releaseCtx line, so the context was never returned to the pool (leaked); or
the model ran out of fuel. -/
inductive Outcome : Type where
  | released (st : Ctx) : Outcome
  | leaked (st : Ctx) : Outcome
  | nofuel : Outcome
deriving DecidableEq

/-- routerImpl.ServeHTTP: search the method tree; on a miss drive a context
over the singleton not-found chain, otherwise over the found chain; the
context starts as acquireCtx configures it. releaseCtx runs only after
ctx.Next() returns normally — there is no defer in ServeHTTP, so a
propagating panic skips the release. -/
def serveHTTP (r : RouterImpl Handler) (fuel : Nat) (method path : Str)
    (cancelled : Bool) : Outcome :=
  match r.search method path with
  | some (chain, _) =>
    match runNext fuel chain (freshCtx cancelled) with
    | .ok st => .released st
    | .panicked st => .leaked st
    | .out => .nofuel
  | none =>
    match runNext fuel [r.notFound] (freshCtx cancelled) with
    | .ok st => .released st
    | .panicked st => .leaked st
    | .out => .nofuel

/-- The chain a dispatched request actually runs: the found chain, or the
singleton not-found chain. -/
def resolvedChain (r : RouterImpl Handler) (method path : Str) : List Handler :=
  match r.search method path with
  | some (chain, _) => chain
  | none => [r.notFound]

/-- The context state carried by a pending call. -/
def Call.st : Call → Ctx
  | .nextC st => st
  | .loopC st => st
  | .actsC _ st => st

lemma run_aborted_latch (chain : List Handler) :
    ∀ (f : Nat) (c : Call) (st2 : Ctx),
      c.st.aborted = true →
      (run chain f c = .ok st2 ∨ run chain f c = .panicked st2) →
      st2.aborted = true := by
  intro f
  induction f with
  | zero =>
      intro c st2 _ h
      rcases h with h | h <;> exact Res.noConfusion h
  | succ f ih =>
      intro c st2 hab h
      cases c with
      | nextC st =>
          simp only [Call.st] at hab
          simp only [run, hab, if_true] at h
          rcases h with h | h
          · cases h; exact hab
          · exact Res.noConfusion h
      | loopC st =>
          simp only [Call.st] at hab
          simp only [run, hab, if_true, ite_self] at h
          rcases h with h | h
          · cases h; exact hab
          · exact Res.noConfusion h
      | actsC acts st =>
          simp only [Call.st] at hab
          cases acts with
          | nil =>
              simp only [run] at h
              rcases h with h | h
              · cases h; exact hab
              · exact Res.noConfusion h
          | cons a rest =>
              cases a with
              | log t =>
                  simp only [run] at h
                  exact ih (.actsC rest { st with trace := st.trace ++ [t] }) st2 hab h
              | abort =>
                  simp only [run] at h
                  exact ih (.actsC rest { st with aborted := true }) st2 rfl h
              | fault =>
                  simp only [run] at h
                  rcases h with h | h
                  · exact Res.noConfusion h
                  · cases h; exact hab
              | next =>
                  simp only [run] at h
                  cases hres : run chain f (.nextC st) with
                  | ok st3 =>
                      rw [hres] at h
                      have hab3 : st3.aborted = true :=
                        ih (.nextC st) st3 hab (Or.inl hres)
                      exact ih (.actsC rest st3) st2 hab3 h
                  | panicked st3 =>
                      rw [hres] at h
                      rcases h with h | h
                      · exact Res.noConfusion h
                      · cases h; exact ih (.nextC st) st2 hab (Or.inr hres)
                  | out =>
                      rw [hres] at h
                      rcases h with h | h <;> exact Res.noConfusion h
              | recov =>
                  simp only [run] at h
                  cases hres : run chain f (.nextC st) with
                  | ok st3 =>
                      rw [hres] at h
                      have hab3 : st3.aborted = true :=
                        ih (.nextC st) st3 hab (Or.inl hres)
                      exact ih (.actsC rest st3) st2 hab3 h
                  | panicked st3 =>
                      rw [hres] at h
                      have hab3 : st3.aborted = true :=
                        ih (.nextC st) st3 hab (Or.inr hres)
                      exact ih (.actsC rest { st3 with trace := st3.trace ++ [500] })
                        st2 hab3 h
                  | out =>
                      rw [hres] at h
                      rcases h with h | h <;> exact Res.noConfusion h

/-- C9: the abort latch is one-way — no dispatch operation clears it: if the
state entering any dispatch call is aborted, the state on normal return or on
panic is still aborted. Once any handler calls Abort, Next invokes no further
handler: Next on an aborted context returns it unchanged. Concretely, in a
4-handler chain where handler #2 aborts, then calls Next (a no-op) and still
runs its remaining code, handlers #3 and #4 never run: the trace is
[1, 21, 22] and the cursor stops at 2. -/
theorem c9_abort_one_way_latch :
    (∀ (chain : List Handler) (f : Nat) (c : Call) (st2 : Ctx),
        c.st.aborted = true →
        run chain f c = .ok st2 ∨ run chain f c = .panicked st2 →
        st2.aborted = true) ∧
    (∀ (chain : List Handler) (f : Nat) (st : Ctx),
        st.aborted = true → runNext (f + 1) chain st = .ok st) ∧
    (runNext 32 [[.log 1], [.log 21, .abort, .next, .log 22], [.log 3], [.log 4]]
        (freshCtx false) =
      .ok { index := 2, aborted := true, cancelled := false,
            trace := [1, 21, 22] }) := by
  refine ⟨run_aborted_latch, ?_, by decide⟩
  intro chain f st hab
  simp [runNext, run, hab]

/-- C9 witness: the latch and the short-circuit applied at a concrete
aborted context. -/
theorem c9_witness :
    ({ index := 0, aborted := true, cancelled := false, trace := [] } : Ctx).aborted
        = true ∧
    runNext 1 [] { index := 0, aborted := true, cancelled := false, trace := [] } =
      .ok { index := 0, aborted := true, cancelled := false, trace := [] } :=
  ⟨rfl,
    c9_abort_one_way_latch.2.1 [] 0
      { index := 0, aborted := true, cancelled := false, trace := [] } rfl⟩

/-- wrap8 is the identity on the int8 range. -/
lemma wrap8_eq_self (z : Int) (h1 : -128 ≤ z) (h2 : z ≤ 127) : wrap8 z = z := by
  unfold wrap8
  omega

/-- The tags a handler body would log, in order. -/
def logsOf (b : Handler) : List Nat :=
  b.filterMap (fun a => match a with | .log t => some t | _ => none)

/-- Whether a handler body consists only of log steps (it neither aborts nor
calls Next, and cannot fault). -/
def logOnly (b : Handler) : Bool :=
  b.all (fun a => match a with | .log _ => true | _ => false)

lemma run_mono (chain : List Handler) :
    ∀ (f g : Nat) (c : Call), f ≤ g → run chain f c ≠ .out →
      run chain g c = run chain f c := by
  intro f
  induction f with
  | zero =>
      intro g c _ hne
      exact absurd rfl hne
  | succ f ih =>
      intro g c hfg hne
      obtain ⟨g, rfl⟩ : ∃ g2, g = g2 + 1 := ⟨g - 1, by omega⟩
      have hfg2 : f ≤ g := by omega
      cases c with
      | nextC st =>
          by_cases hab : st.aborted = true
          · simp [run, hab]
          · simp only [run, hab, if_false] at hne ⊢
            exact ih g _ hfg2 hne
      | loopC st =>
          by_cases hidx : st.index < wrap8 chain.length
          case neg => simp [run, hidx]
          case pos =>
            by_cases hab : st.aborted = true
            · simp [run, hidx, hab]
            · by_cases hcan : st.cancelled = true
              · simp [run, hidx, hab, hcan]
              · by_cases hneg : st.index < 0
                · simp [run, hidx, hab, hcan, hneg]
                · simp only [run, if_pos hidx, if_neg hab, if_neg hcan, if_neg hneg]
                    at hne ⊢
                  cases hbody : chain[st.index.toNat]? with
                  | none => simp [hbody]
                  | some body =>
                      simp only [hbody] at hne ⊢
                      cases hres : run chain f (.actsC body st) with
                      | ok st2 =>
                          have hinner : run chain g (.actsC body st) =
                              run chain f (.actsC body st) :=
                            ih g _ hfg2 (by rw [hres]; exact fun h => Res.noConfusion h)
                          rw [hres] at hne
                          rw [hinner, hres]
                          exact ih g _ hfg2 hne
                      | panicked st2 =>
                          have hinner : run chain g (.actsC body st) =
                              run chain f (.actsC body st) :=
                            ih g _ hfg2 (by rw [hres]; exact fun h => Res.noConfusion h)
                          rw [hinner, hres]
                      | out =>
                          rw [hres] at hne
                          exact absurd rfl hne
      | actsC acts st =>
          cases acts with
          | nil => simp [run]
          | cons a rest =>
              cases a with
              | log t =>
                  simp only [run] at hne ⊢
                  exact ih g _ hfg2 hne
              | abort =>
                  simp only [run] at hne ⊢
                  exact ih g _ hfg2 hne
              | fault => simp [run]
              | next =>
                  simp only [run] at hne ⊢
                  cases hres : run chain f (.nextC st) with
                  | ok st2 =>
                      have hinner : run chain g (.nextC st) = run chain f (.nextC st) :=
                        ih g _ hfg2 (by rw [hres]; exact fun h => Res.noConfusion h)
                      rw [hres] at hne
                      rw [hinner, hres]
                      exact ih g _ hfg2 hne
                  | panicked st2 =>
                      have hinner : run chain g (.nextC st) = run chain f (.nextC st) :=
                        ih g _ hfg2 (by rw [hres]; exact fun h => Res.noConfusion h)
                      rw [hinner, hres]
                  | out =>
                      rw [hres] at hne
                      exact absurd rfl hne
              | recov =>
                  simp only [run] at hne ⊢
                  cases hres : run chain f (.nextC st) with
                  | ok st2 =>
                      have hinner : run chain g (.nextC st) = run chain f (.nextC st) :=
                        ih g _ hfg2 (by rw [hres]; exact fun h => Res.noConfusion h)
                      rw [hres] at hne
                      rw [hinner, hres]
                      exact ih g _ hfg2 hne
                  | panicked st2 =>
                      have hinner : run chain g (.nextC st) = run chain f (.nextC st) :=
                        ih g _ hfg2 (by rw [hres]; exact fun h => Res.noConfusion h)
                      rw [hres] at hne
                      rw [hinner, hres]
                      exact ih g _ hfg2 hne
                  | out =>
                      rw [hres] at hne
                      exact absurd rfl hne

lemma run_pure_acts (chain : List Handler) (acts : Handler) :
    ∀ st : Ctx, logOnly acts = true →
      run chain (acts.length + 1) (.actsC acts st) =
        .ok { st with trace := st.trace ++ logsOf acts } := by
  induction acts with
  | nil =>
      intro st _
      simp [run, logsOf]
  | cons a rest ih =>
      intro st hl
      cases a with
      | log t =>
          have hl2 : logOnly rest = true := by simpa [logOnly] using hl
          show run chain (rest.length + 1)
              (.actsC rest { st with trace := st.trace ++ [t] }) = _
          rw [ih _ hl2]
          simp [logsOf, List.append_assoc]
      | abort => simp [logOnly] at hl
      | next => simp [logOnly] at hl
      | fault => simp [logOnly] at hl
      | recov => simp [logOnly] at hl

lemma run_pure_loop (chain : List Handler)
    (hpure : ∀ b ∈ chain, logOnly b = true) (hlen : chain.length ≤ 127) :
    ∀ (k : Nat) (st : Ctx), st.aborted = false → st.cancelled = false →
      0 ≤ st.index → st.index.toNat ≤ chain.length →
      k = chain.length - st.index.toNat →
      ∃ f, run chain f (.loopC st) =
        .ok { st with
              index := (chain.length : Int),
              trace := st.trace ++ ((chain.drop st.index.toNat).map logsOf).flatten } := by
  intro k
  induction k with
  | zero =>
      intro st hab hcan hnn hle hk
      have hidx : st.index = (chain.length : Int) := by omega
      refine ⟨1, ?_⟩
      have hw : wrap8 (chain.length : Int) = (chain.length : Int) :=
        wrap8_eq_self _ (by omega) (by omega)
      have hdrop : chain.drop st.index.toNat = [] :=
        List.drop_eq_nil_of_le (by omega)
      have hcond : ¬ st.index < wrap8 (chain.length : Int) := by
        rw [hw]; omega
      rw [hdrop]
      simp only [run, if_neg hcond, List.map_nil, List.flatten_nil, List.append_nil]
      rw [← hidx]
  | succ k ih =>
      intro st hab hcan hnn hle hk
      have hidxlt : st.index.toNat < chain.length := by omega
      have hidxlt2 : st.index < (chain.length : Int) := by omega
      have hw : wrap8 (chain.length : Int) = (chain.length : Int) :=
        wrap8_eq_self _ (by omega) (by omega)
      have hbody : chain[st.index.toNat]? = some chain[st.index.toNat] :=
        List.getElem?_eq_getElem hidxlt
      have hbl : logOnly chain[st.index.toNat] = true :=
        hpure _ (List.getElem_mem hidxlt)
      have hacts := run_pure_acts chain chain[st.index.toNat] st hbl
      have hw1 : wrap8 (st.index + 1) = st.index + 1 :=
        wrap8_eq_self _ (by omega) (by omega)
      obtain ⟨f2, hf2⟩ := ih
        { st with
          index := st.index + 1,
          trace := st.trace ++ logsOf chain[st.index.toNat] }
        hab hcan (by simp; omega) (by simp; omega) (by simp; omega)
      refine ⟨max (chain[st.index.toNat].length + 1) f2 + 1, ?_⟩
      have hm1 : run chain (max (chain[st.index.toNat].length + 1) f2)
          (.actsC chain[st.index.toNat] st) =
          .ok { st with trace := st.trace ++ logsOf chain[st.index.toNat] } := by
        rw [run_mono chain (chain[st.index.toNat].length + 1) _ _
          (le_max_left _ _) (by rw [hacts]; exact fun h => Res.noConfusion h)]
        exact hacts
      have hm2 : run chain (max (chain[st.index.toNat].length + 1) f2)
          (.loopC { st with
            index := st.index + 1,
            trace := st.trace ++ logsOf chain[st.index.toNat] }) =
          .ok { st with
            index := (chain.length : Int),
            trace := (st.trace ++ logsOf chain[st.index.toNat]) ++
              ((chain.drop ((st.index + 1 : Int)).toNat).map logsOf).flatten } := by
        rw [run_mono chain f2 _ _
          (le_max_right _ _) (by rw [hf2]; exact fun h => Res.noConfusion h)]
        exact hf2
      have hcond : st.index < wrap8 (chain.length : Int) := by
        rw [hw]; exact hidxlt2
      simp only [run, if_pos hcond,
        if_neg (show ¬ st.aborted = true by simp [hab]),
        if_neg (show ¬ st.cancelled = true by simp [hcan]),
        if_neg (show ¬ st.index < 0 by omega), hbody, hm1]
      rw [hw1, hm2]
      have hdrop : chain.drop st.index.toNat =
          chain[st.index.toNat] :: chain.drop (st.index.toNat + 1) :=
        List.drop_eq_getElem_cons hidxlt
      have htn : ((st.index + 1 : Int)).toNat = st.index.toNat + 1 := by omega
      rw [htn, hdrop]
      simp only [← List.map_drop, hdrop, List.map_cons, List.flatten_cons,
        List.append_assoc]

lemma run_pure_next (chain : List Handler)
    (hpure : ∀ b ∈ chain, logOnly b = true) (hlen : chain.length ≤ 127) :
    ∃ f, runNext f chain (freshCtx false) =
      .ok { index := (chain.length : Int), aborted := false, cancelled := false,
            trace := (chain.map logsOf).flatten } := by
  obtain ⟨f, hf⟩ := run_pure_loop chain hpure hlen chain.length
    { index := 0, aborted := false, cancelled := false, trace := [] }
    rfl rfl (by decide) (by simp) (by simp)
  refine ⟨f + 1, ?_⟩
  show run chain f
      (.loopC { index := 0, aborted := false, cancelled := false, trace := [] }) =
    .ok { index := (chain.length : Int), aborted := false, cancelled := false,
          trace := (chain.map logsOf).flatten }
  exact hf

/-- C10: for every chain of at most 127 handlers none of which aborts, calls
Next, faults or recovers (log-only bodies), driving a freshly acquired
context (cursor -1, not aborted, not cancelled) with Next runs every handler
exactly once in chain order — the final trace is the in-order concatenation
of the handlers' logs and the cursor rests at the chain length. The
127-handler bound is forced by the int8 cursor: with exactly 128 handlers the
loop guard compares against int8(128) = -128 and Next returns without
invoking any handler at all. -/
theorem c10_sequential_dispatch_and_int8_limit :
    (∀ chain : List Handler, (∀ b ∈ chain, logOnly b = true) →
      chain.length ≤ 127 →
      ∃ f, runNext f chain (freshCtx false) =
        .ok { index := (chain.length : Int), aborted := false, cancelled := false,
              trace := (chain.map logsOf).flatten }) ∧
    runNext 3 (List.replicate 128 [Act.log 7]) (freshCtx false) =
      .ok { index := 0, aborted := false, cancelled := false, trace := [] } :=
  ⟨run_pure_next, by decide⟩

/-- C10 witness: the sequential-dispatch theorem applied to a concrete
two-handler log-only chain. -/
theorem c10_witness :
    (∀ b ∈ [[Act.log 5], [Act.log 6]], logOnly b = true) ∧
    ∃ f, runNext f [[Act.log 5], [Act.log 6]] (freshCtx false) =
      .ok { index := (2 : Int), aborted := false, cancelled := false,
            trace := [5, 6] } :=
  ⟨by decide,
    c10_sequential_dispatch_and_int8_limit.1 [[Act.log 5], [Act.log 6]]
      (by decide) (by decide)⟩

/-- C1, counterexample: the claim fails on the not-found path. ServeHTTP has
no defer around releaseCtx, and the not-found chain is the bare singleton
[notFound] with no Recover middleware in front, so a panicking not-found
handler propagates out of ServeHTTP and the context is never released. -/
theorem c1_counterexample :
    serveHTTP (emptyRouter [Act.fault]) 10 "GET".toList "/nope".toList false =
      .leaked { index := 0, aborted := false, cancelled := false, trace := [] } := by
  decide

/-- C1, amended: dispatch returns normally and releases the context exactly
once whenever the resolved chain (found chain, or the singleton not-found
chain) runs without faulting — here, any log-only chain of at most 127
handlers; and when the chain's first handler is the Recover middleware (as
for routes registered on a Sol router, whose New installs Recover as the
first global middleware), a fault in a later handler is recovered into a 500
response and dispatch still releases the context. A fault outside Recover's
protection — the not-found chain, or a group middleware placed before
Recover — escapes ServeHTTP and skips the release (see the counterexample). -/
theorem c1_dispatch_releases_when_protected :
    (∀ (r : RouterImpl Handler) (method path : Str),
        (∀ b ∈ resolvedChain r method path, logOnly b = true) →
        (resolvedChain r method path).length ≤ 127 →
        ∃ f st, serveHTTP r f method path false = .released st) ∧
    (∃ r1 : RouterImpl Handler,
        ((emptyRouter [Act.log 404]).use [[Act.recov]]).doGET
            "/boom".toList [[.log 1, .fault], [.log 3]] = .ok r1 ∧
        serveHTTP r1 64 "GET".toList "/boom".toList false =
          .released { index := 3, aborted := false, cancelled := false,
                      trace := [1, 500, 3] }) := by
  constructor
  · intro r method path hpure hlen
    obtain ⟨f, hf⟩ := run_pure_next (resolvedChain r method path) hpure hlen
    refine ⟨f, ?_⟩
    unfold serveHTTP
    unfold resolvedChain at hf
    cases hs : r.search method path with
    | some pr =>
        obtain ⟨chain, params⟩ := pr
        simp only [hs] at hf
        simp only [hs]
        exact ⟨_, by rw [hf]⟩
    | none =>
        simp only [hs] at hf
        simp only [hs]
        exact ⟨_, by rw [hf]⟩
  · exact ⟨_, rfl, by decide⟩

/-- C1 witness: the release guarantee applied to a concrete router whose
not-found handler only logs, dispatching a path with no routes registered. -/
theorem c1_witness :
    (∀ b ∈ resolvedChain (emptyRouter [Act.log 404]) "GET".toList "/".toList,
        logOnly b = true) ∧
    (resolvedChain (emptyRouter [Act.log 404]) "GET".toList "/".toList).length ≤ 127 ∧
    ∃ f st,
      serveHTTP (emptyRouter [Act.log 404]) f "GET".toList "/".toList false =
        .released st :=
  ⟨by decide, by decide,
    c1_dispatch_releases_when_protected.1 (emptyRouter [Act.log 404])
      "GET".toList "/".toList (by decide) (by decide)⟩
